import Mathlib

/-!
Shallow embedding of the PR-review daemon's synchronization engine
(src/poll.ts, src/review.ts, src/cleanup.ts, src/settings.ts,
src/utils.ts, src/github.ts and the versioned review store in server.js).

External effects (gh queries, git commands, the review generator process,
the filesystem) are modelled as explicit oracle parameters and explicit
state values; the control flow, guards and state mutations are translated
branch by branch from the TypeScript source.
-/

/-- Author field of a PR as delivered by the hosting service: either an
object with an optional login, a bare string, or absent (src/types.ts,
PRDetails.author). -/
inductive AuthorField where
  | obj (login : Option String)
  | str (s : String)
  | missing
deriving DecidableEq, Repr

/-- One discovered pull request (the fields of PRDetails that the
orchestrator reads). -/
structure PR where
  repo : String
  number : Nat
  title : String
  author : AuthorField
  headRefOid : Option String
deriving DecidableEq, Repr

/-- The configuration fields read by the filtering and scheduling code
(src/config.ts). -/
structure Config where
  githubUsername : String
  onlyOwnPRs : Bool
  reviewOwnPRs : Bool
  parallelReviews : Nat
deriving DecidableEq, Repr

/-- Item key used everywhere as the ledger key: the template string
repo#number (src/poll.ts, prKey). -/
def prKeyOf (pr : PR) : String := pr.repo ++ "#" ++ toString pr.number

/-- The work ledger prState: a map from item key to last-synced commit SHA,
modelled as an association list without duplicate keys (Map iteration
order is insertion order). -/
abbrev Ledger := List (String × String)

/-- Lookup in the ledger (Map.get). -/
def ledgerGet : Ledger → String → Option String
  | [], _ => none
  | e :: rest, k => if e.1 = k then some e.2 else ledgerGet rest k

/-- Update or insert in the ledger (Map.set). -/
def ledgerSet : Ledger → String → String → Ledger
  | [], k, v => [(k, v)]
  | e :: rest, k, v => if e.1 = k then (k, v) :: rest else e :: ledgerSet rest k v

/-- Extract the author login, handling object and string forms; an absent
or empty login yields the string unknown (src/utils.ts, getAuthorLogin).
The empty-login case falls to unknown because of JS truthiness in
author.login || unknown. -/
def getAuthorLogin : AuthorField → String
  | AuthorField.obj (some l) => if l = "" then "unknown" else l
  | AuthorField.obj none => "unknown"
  | AuthorField.str s => s
  | AuthorField.missing => "unknown"

/-- JS truthiness of the expression CONFIG.githubUsername &&
authorLogin === CONFIG.githubUsername: truthy exactly when the configured
username is a nonempty string and the author login equals it
(src/utils.ts line 66). -/
def isOwnPR (cfg : Config) (authorLogin : String) : Bool :=
  cfg.githubUsername ≠ "" ∧ authorLogin = cfg.githubUsername

/-- Author filtering predicate (src/utils.ts, shouldProcessPR). -/
def shouldProcessPR (cfg : Config) (authorLogin : String) : Bool :=
  if cfg.onlyOwnPRs ∧ ¬(isOwnPR cfg authorLogin) then false
  else if ¬cfg.onlyOwnPRs ∧ ¬cfg.reviewOwnPRs ∧ isOwnPR cfg authorLogin then false
  else true

/-- Outcome of the externally-effectful part of one processing attempt:
the clone/checkout/runReview sequence either throws, or runReview returns
null (review generation failed; a failed version record was written), or
runReview returns the stored artifact path. -/
inductive AttemptOutcome where
  | threw
  | reviewFailed
  | reviewOk (path : String)
deriving DecidableEq, Repr

/-- Result of one processPR call: the ledger afterwards, the value
returned (the review path or null), and whether the try block performing
clone, checkout and review generation was entered. -/
structure StepResult where
  ledger : Ledger
  reviewPath : Option String
  attempted : Bool
deriving DecidableEq, Repr

/-- Translation of processPR (src/poll.ts lines 10-75). Guards in source
order: missing or empty head SHA skips; an unchanged SHA skips unless
forced; an author failing the filter advances the ledger and skips; the
attempt then runs, and the ledger entry is set and saved only when
runReview returned a path, while a failure or a thrown error leaves the
ledger untouched. -/
def processPR (cfg : Config) (ledger : Ledger) (pr : PR) (force : Bool)
    (outcome : AttemptOutcome) : StepResult :=
  let key := prKeyOf pr
  let lastSha := ledgerGet ledger key
  match pr.headRefOid with
  | none => ⟨ledger, none, false⟩
  | some currentSha =>
    if currentSha = "" then ⟨ledger, none, false⟩
    else if lastSha = some currentSha ∧ force = false then ⟨ledger, none, false⟩
    else if shouldProcessPR cfg (getAuthorLogin pr.author) = false then
      ⟨ledgerSet ledger key currentSha, none, false⟩
    else
      match outcome with
      | AttemptOutcome.reviewOk path => ⟨ledgerSet ledger key currentSha, some path, true⟩
      | AttemptOutcome.reviewFailed => ⟨ledger, none, true⟩
      | AttemptOutcome.threw => ⟨ledger, none, true⟩

theorem ledgerGet_ledgerSet_self (l : Ledger) (k v : String) :
    ledgerGet (ledgerSet l k v) k = some v := by
  induction l with
  | nil => simp [ledgerSet, ledgerGet]
  | cons e rest ih =>
    by_cases h : e.1 = k
    · simp [ledgerSet, h, ledgerGet]
    · simp [ledgerSet, h, ledgerGet, ih]

theorem ledgerGet_ledgerSet_other (l : Ledger) (k v k' : String) (hne : k' ≠ k) :
    ledgerGet (ledgerSet l k v) k' = ledgerGet l k' := by
  induction l with
  | nil => simp [ledgerSet, ledgerGet, Ne.symm hne]
  | cons e rest ih =>
    by_cases h : e.1 = k
    · simp [ledgerSet, ledgerGet, h, Ne.symm hne]
    · simp [ledgerSet, ledgerGet, h, ih]

theorem processPR_get_other (cfg : Config) (l : Ledger) (pr : PR) (force : Bool)
    (o : AttemptOutcome) (k : String) (hk : k ≠ prKeyOf pr) :
    ledgerGet (processPR cfg l pr force o).ledger k = ledgerGet l k := by
  unfold processPR
  cases pr.headRefOid with
  | none => simp
  | some s =>
    by_cases h1 : s = ""
    · simp [h1]
    · by_cases h2 : ledgerGet l (prKeyOf pr) = some s ∧ force = false
      · simp [h1, h2]
      · by_cases h3 : shouldProcessPR cfg (getAuthorLogin pr.author) = false
        · simp [h1, h2, h3, ledgerGet_ledgerSet_other _ _ _ _ hk]
        · cases o <;> simp [h1, h2, h3, ledgerGet_ledgerSet_other _ _ _ _ hk]

/-- Result of the processing phase of one sync cycle: the ledger
afterwards, the review paths produced, and the keys of the items for
which the clone/checkout/review try block was entered. -/
structure CycleResult where
  ledger : Ledger
  reviews : List String
  attempts : List String
deriving DecidableEq, Repr

/-- Sequential processing of a list of PRs with processPR, threading the
ledger (src/poll.ts lines 216-243: the awaited schedule is linearized
here; distinct in-flight items touch distinct ledger keys, see
processPR_get_other). -/
def processList (cfg : Config) (oracle : PR → AttemptOutcome) :
    Ledger → List PR → CycleResult
  | l, [] => ⟨l, [], []⟩
  | l, pr :: rest =>
    let r := processPR cfg l pr false (oracle pr)
    let tail := processList cfg oracle r.ledger rest
    ⟨tail.ledger,
     (match r.reviewPath with | some p => [p] | none => []) ++ tail.reviews,
     (if r.attempted then [prKeyOf pr] else []) ++ tail.attempts⟩

/-- Grouping of the due PRs by repository in first-occurrence order, each
repository mapped to its PRs in list order: the observable content of the
prsByRepo insertion-ordered Map (src/poll.ts lines 205-212). -/
def groupByRepo : List PR → List (String × List PR)
  | [] => []
  | pr :: rest =>
    (pr.repo, pr :: rest.filter (fun q => q.repo == pr.repo)) ::
      groupByRepo (rest.filter (fun q => !(q.repo == pr.repo)))
termination_by l => l.length
decreasing_by
  simp only [List.length_cons]
  exact Nat.lt_succ_of_le (List.length_filter_le _ _)

/-- Splitting of the repository queues into consecutive chunks of at most
c entries, processed one chunk at a time (the loop at src/poll.ts lines
216-217 advancing i by the concurrency cap). -/
def chunkList (c : Nat) : List α → List (List α)
  | [] => []
  | x :: xs => (x :: xs.take (c - 1)) :: chunkList c (xs.drop (c - 1))
termination_by l => l.length
decreasing_by
  simp only [List.length_cons, List.length_drop]
  exact Nat.lt_succ_of_le (Nat.sub_le _ _)

/-- Filtering of a cycle down to the due items: the author filter applied
at discovery (src/poll.ts line 167) and the change-detection filter
(src/poll.ts lines 193-197: a truthy head SHA differing from the stored
one). -/
def shaTruthy (o : Option String) : Bool :=
  match o with | none => false | some s => s ≠ ""

def duePRs (cfg : Config) (ledger : Ledger) (prs : List PR) : List PR :=
  (prs.filter (fun pr => shouldProcessPR cfg (getAuthorLogin pr.author))).filter
    (fun pr =>
      shaTruthy pr.headRefOid &&
      !(ledgerGet ledger (prKeyOf pr) == pr.headRefOid))

/-- Linearization of the chunked per-repository schedule: chunks in order,
repositories of a chunk in order, each repository's PRs in order. -/
def scheduledPRs (c : Nat) (due : List PR) : List PR :=
  (((chunkList c (groupByRepo due)).flatten).map Prod.snd).flatten

/-- One full processing pass of the poll cycle body (src/poll.ts lines
164-243): discovery results are filtered, the due items are grouped by
repository and chunked by the concurrency cap, then processed. -/
def pollCycle (cfg : Config) (oracle : PR → AttemptOutcome) (ledger : Ledger)
    (prs : List PR) : CycleResult :=
  processList cfg oracle ledger (scheduledPRs cfg.parallelReviews (duePRs cfg ledger prs))

theorem chunkList_join (c : Nat) (l : List α) : (chunkList c l).flatten = l := by
  induction l using chunkList.induct c with
  | case1 => simp [chunkList]
  | case2 x xs ih => simp [chunkList, ih]

theorem chunkList_length_le (c : Nat) (hc : 0 < c) (l : List α) :
    ∀ ch ∈ chunkList c l, ch.length ≤ c := by
  induction l using chunkList.induct c with
  | case1 => simp [chunkList]
  | case2 x xs ih =>
    intro ch hch
    simp only [chunkList, List.mem_cons] at hch
    rcases hch with h | h
    · subst h
      simp only [List.length_cons]
      have : (xs.take (c - 1)).length ≤ c - 1 := by
        simp [List.length_take]
      omega
    · exact ih ch h

theorem groupByRepo_key_mem (l : List PR) :
    ∀ p ∈ groupByRepo l, ∃ q ∈ l, q.repo = p.1 := by
  induction l using groupByRepo.induct with
  | case1 => simp [groupByRepo]
  | case2 pr rest ih =>
    intro p hp
    simp only [groupByRepo, List.mem_cons] at hp
    rcases hp with h | h
    · subst h
      exact ⟨pr, List.mem_cons_self _ _, rfl⟩
    · obtain ⟨q, hq, hqr⟩ := ih p h
      exact ⟨q, List.mem_cons_of_mem _ (List.mem_of_mem_filter hq), hqr⟩

theorem groupByRepo_group_eq (l : List PR) :
    ∀ p ∈ groupByRepo l, p.2 = l.filter (fun q => q.repo == p.1) := by
  induction l using groupByRepo.induct with
  | case1 => simp [groupByRepo]
  | case2 pr rest ih =>
    intro p hp
    simp only [groupByRepo, List.mem_cons] at hp
    rcases hp with h | h
    · subst h
      simp [List.filter_cons]
    · have hkey : p.1 ≠ pr.repo := by
        obtain ⟨q, hq, hqr⟩ := groupByRepo_key_mem _ p h
        have := List.of_mem_filter hq
        simp only [Bool.not_eq_true', beq_eq_false_iff_ne, ne_eq] at this
        rw [← hqr]; exact this
      have h2 := ih p h
      rw [h2]
      rw [List.filter_comm]
      have hself :
          (rest.filter (fun q => q.repo == p.1)).filter
              (fun q => !(q.repo == pr.repo)) =
            rest.filter (fun q => q.repo == p.1) := by
        apply List.filter_eq_self.mpr
        intro q hq
        have := List.of_mem_filter hq
        simp only [beq_iff_eq] at this
        simp [this, hkey]
      rw [hself]
      have hpr : (pr.repo == p.1) = false := by
        simp [Ne.symm hkey]
      simp [List.filter_cons, hpr]

theorem groupByRepo_keys_nodup (l : List PR) :
    ((groupByRepo l).map Prod.fst).Nodup := by
  induction l using groupByRepo.induct with
  | case1 => simp [groupByRepo]
  | case2 pr rest ih =>
    simp only [groupByRepo, List.map_cons, List.nodup_cons]
    refine ⟨?_, ih⟩
    intro hmem
    simp only [List.mem_map] at hmem
    obtain ⟨p, hp, hfst⟩ := hmem
    obtain ⟨q, hq, hqr⟩ := groupByRepo_key_mem _ p hp
    have := List.of_mem_filter hq
    simp only [Bool.not_eq_true', beq_eq_false_iff_ne, ne_eq] at this
    exact this (by rw [hqr, hfst])

theorem groupByRepo_join_perm (l : List PR) :
    ((groupByRepo l).map Prod.snd).flatten.Perm l := by
  induction l using groupByRepo.induct with
  | case1 => simp [groupByRepo]
  | case2 pr rest ih =>
    simp only [groupByRepo, List.map_cons, List.flatten_cons]
    refine List.Perm.trans (List.Perm.append_left _ ih) ?_
    rw [List.cons_append]
    exact List.Perm.cons _ (List.filter_append_perm _ _)

theorem scheduledPRs_perm (c : Nat) (due : List PR) :
    (scheduledPRs c due).Perm due := by
  unfold scheduledPRs
  rw [chunkList_join]
  exact groupByRepo_join_perm due

theorem processList_get_not_mem (cfg : Config) (oracle : PR → AttemptOutcome)
    (l : Ledger) (prs : List PR) (k : String) (hk : k ∉ prs.map prKeyOf) :
    ledgerGet (processList cfg oracle l prs).ledger k = ledgerGet l k := by
  induction prs generalizing l with
  | nil => simp [processList]
  | cons pr rest ih =>
    simp only [List.map_cons, List.mem_cons, not_or] at hk
    simp only [processList]
    rw [ih _ hk.2, processPR_get_other _ _ _ _ _ _ hk.1]

theorem processPR_success_get (cfg : Config) (l : Ledger) (pr : PR) (p s : String)
    (hsha : pr.headRefOid = some s) (hs : s ≠ "")
    (hfp : shouldProcessPR cfg (getAuthorLogin pr.author) = true) :
    ledgerGet (processPR cfg l pr false (AttemptOutcome.reviewOk p)).ledger (prKeyOf pr) =
      some s := by
  by_cases h2 : ledgerGet l (prKeyOf pr) = some s
  · simp [processPR, hsha, hs, h2]
  · simp [processPR, hsha, hs, h2, hfp, ledgerGet_ledgerSet_self]

theorem processList_all_synced (cfg : Config) (oracle : PR → AttemptOutcome)
    (l : Ledger) (prs : List PR)
    (hnd : (prs.map prKeyOf).Nodup)
    (hall : ∀ pr ∈ prs, (∃ s, pr.headRefOid = some s ∧ s ≠ "") ∧
      shouldProcessPR cfg (getAuthorLogin pr.author) = true ∧
      (∃ p, oracle pr = AttemptOutcome.reviewOk p)) :
    ∀ pr ∈ prs, ledgerGet (processList cfg oracle l prs).ledger (prKeyOf pr) =
      pr.headRefOid := by
  induction prs generalizing l with
  | nil => simp
  | cons q rest ih =>
    intro pr hpr
    simp only [List.map_cons, List.nodup_cons] at hnd
    rcases List.mem_cons.mp hpr with rfl | hmem
    · obtain ⟨⟨s, hsha, hs⟩, hfp, p, hop⟩ := hall pr (List.mem_cons_self _ _)
      simp only [processList]
      rw [processList_get_not_mem _ _ _ _ _ hnd.1, hop, hsha]
      exact processPR_success_get _ _ _ _ _ hsha hs hfp
    · simp only [processList]
      exact ih _ hnd.2 (fun q hq => hall q (List.mem_cons_of_mem _ hq)) pr hmem

theorem processList_attempts_mem (cfg : Config) (oracle : PR → AttemptOutcome)
    (l : Ledger) (prs : List PR) :
    ∀ k ∈ (processList cfg oracle l prs).attempts, k ∈ prs.map prKeyOf := by
  induction prs generalizing l with
  | nil => simp [processList]
  | cons pr rest ih =>
    intro k hk
    simp only [processList, List.mem_append] at hk
    rcases hk with hk | hk
    · by_cases ha : (processPR cfg l pr false (oracle pr)).attempted
      · simp only [ha, if_true, List.mem_singleton] at hk
        simp [hk]
      · simp [ha] at hk
    · simp only [List.map_cons, List.mem_cons]
      exact Or.inr (ih _ k hk)

theorem pollCycle_no_due (cfg : Config) (oracle : PR → AttemptOutcome)
    (ledger : Ledger) (prs : List PR) (h : duePRs cfg ledger prs = []) :
    pollCycle cfg oracle ledger prs = ⟨ledger, [], []⟩ := by
  unfold pollCycle scheduledPRs
  rw [h]
  simp [groupByRepo, chunkList, processList]

/-- C1: in a processing attempt of a due, filter-passing item (a poll
cycle passes no force flag), the ledger's stored revision for the item's
key afterwards equals the item's head revision exactly when runReview
produced and stored a review artifact, and a failed or thrown attempt
leaves the whole ledger unchanged. -/
theorem C1_ledger_advances_iff_review_succeeded
    (cfg : Config) (ledger : Ledger) (pr : PR) (outcome : AttemptOutcome) (s : String)
    (hsha : pr.headRefOid = some s) (hs : s ≠ "")
    (hfp : shouldProcessPR cfg (getAuthorLogin pr.author) = true)
    (hdue : ledgerGet ledger (prKeyOf pr) ≠ some s) :
    (ledgerGet (processPR cfg ledger pr false outcome).ledger (prKeyOf pr) = some s ↔
      ∃ p, outcome = AttemptOutcome.reviewOk p) ∧
    ((∀ p, outcome ≠ AttemptOutcome.reviewOk p) →
      (processPR cfg ledger pr false outcome).ledger = ledger) ∧
    (processPR cfg ledger pr false outcome).attempted = true := by
  cases outcome with
  | threw => simp [processPR, hsha, hs, hfp, hdue]
  | reviewFailed => simp [processPR, hsha, hs, hfp, hdue]
  | reviewOk p =>
    refine ⟨?_, ?_, ?_⟩
    · constructor
      · intro _; exact ⟨p, rfl⟩
      · intro _; exact processPR_success_get _ _ _ _ _ hsha hs hfp
    · intro hno
      exact absurd rfl (hno p)
    · simp [processPR, hsha, hs, hfp, hdue]

/-- C1 witness: a concrete due item whose successful attempt advances the
ledger entry to the head revision. -/
theorem C1_witness :
    ledgerGet
      (processPR ⟨"alice", false, false, 3⟩ [] ⟨"acme/widgets", 42, "t", AuthorField.str "bob", some "abc1234"⟩
        false (AttemptOutcome.reviewOk "reviews/acme_widgets/pr-review-42.md")).ledger
      (prKeyOf ⟨"acme/widgets", 42, "t", AuthorField.str "bob", some "abc1234"⟩) = some "abc1234" :=
  (C1_ledger_advances_iff_review_succeeded
    ⟨"alice", false, false, 3⟩ [] ⟨"acme/widgets", 42, "t", AuthorField.str "bob", some "abc1234"⟩
    (AttemptOutcome.reviewOk "reviews/acme_widgets/pr-review-42.md") "abc1234"
    rfl (by decide) (by decide) (by decide)).1.mpr
    ⟨"reviews/acme_widgets/pr-review-42.md", rfl⟩

theorem shaTruthy_iff (o : Option String) :
    shaTruthy o = true ↔ ∃ s, o = some s ∧ s ≠ "" := by
  cases o <;> simp [shaTruthy]

theorem duePRs_mem_facts (cfg : Config) (ledger : Ledger) (prs : List PR) :
    ∀ q ∈ duePRs cfg ledger prs,
      q ∈ prs ∧ shouldProcessPR cfg (getAuthorLogin q.author) = true ∧
      (∃ s, q.headRefOid = some s ∧ s ≠ "") := by
  intro q hq
  unfold duePRs at hq
  have h1 := List.mem_of_mem_filter hq
  have hcond := List.of_mem_filter hq
  have hsp := List.of_mem_filter h1
  have hqprs := List.mem_of_mem_filter h1
  rw [Bool.and_eq_true] at hcond
  exact ⟨hqprs, hsp, (shaTruthy_iff _).mp hcond.1⟩

/-- C2: starting a cycle whose review attempts all succeed and then
running a second cycle over the same discovery results (no head revision
changed), the second cycle finds no due items, so every item with stored
revision equal to its head is skipped before any clone, checkout or
review invocation, and the second cycle performs no ledger mutation and
produces no review version. -/
theorem C2_second_cycle_is_noop (cfg : Config) (oracle1 oracle2 : PR → AttemptOutcome)
    (ledger : Ledger) (prs : List PR)
    (hkeys : (prs.map prKeyOf).Nodup)
    (hsucc : ∀ pr ∈ prs, ∃ p, oracle1 pr = AttemptOutcome.reviewOk p) :
    duePRs cfg (pollCycle cfg oracle1 ledger prs).ledger prs = [] ∧
    pollCycle cfg oracle2 (pollCycle cfg oracle1 ledger prs).ledger prs =
      ⟨(pollCycle cfg oracle1 ledger prs).ledger, [], []⟩ := by
  have hperm := scheduledPRs_perm cfg.parallelReviews (duePRs cfg ledger prs)
  have hdue_sub : (duePRs cfg ledger prs).Sublist prs := by
    unfold duePRs
    exact (List.filter_sublist _).trans (List.filter_sublist _)
  have hnd_due : ((duePRs cfg ledger prs).map prKeyOf).Nodup :=
    List.Nodup.sublist (hdue_sub.map prKeyOf) hkeys
  have hnd_sch :
      ((scheduledPRs cfg.parallelReviews (duePRs cfg ledger prs)).map prKeyOf).Nodup :=
    ((hperm.map prKeyOf).nodup_iff).mpr hnd_due
  have hall_sch : ∀ q ∈ scheduledPRs cfg.parallelReviews (duePRs cfg ledger prs),
      (∃ s, q.headRefOid = some s ∧ s ≠ "") ∧
      shouldProcessPR cfg (getAuthorLogin q.author) = true ∧
      (∃ p, oracle1 q = AttemptOutcome.reviewOk p) := by
    intro q hq
    obtain ⟨hqprs, hsp, hex⟩ := duePRs_mem_facts cfg ledger prs q (hperm.mem_iff.mp hq)
    exact ⟨hex, hsp, hsucc q hqprs⟩
  have hsynced := processList_all_synced cfg oracle1 ledger
    (scheduledPRs cfg.parallelReviews (duePRs cfg ledger prs)) hnd_sch hall_sch
  have hmain : ∀ pr ∈ prs, shouldProcessPR cfg (getAuthorLogin pr.author) = true →
      shaTruthy pr.headRefOid = true →
      ledgerGet (pollCycle cfg oracle1 ledger prs).ledger (prKeyOf pr) = pr.headRefOid := by
    intro pr hpr hsp htr
    by_cases hd : pr ∈ duePRs cfg ledger prs
    · exact hsynced pr (hperm.mem_iff.mpr hd)
    · have hkey_not : prKeyOf pr ∉
          (scheduledPRs cfg.parallelReviews (duePRs cfg ledger prs)).map prKeyOf := by
        intro hmem
        obtain ⟨q, hq, hqk⟩ := List.mem_map.mp hmem
        have hq_due := hperm.mem_iff.mp hq
        have hq_prs := (duePRs_mem_facts cfg ledger prs q hq_due).1
        have hqe : q = pr := List.inj_on_of_nodup_map hkeys hq_prs hpr hqk
        exact hd (hqe ▸ hq_due)
      have hpres := processList_get_not_mem cfg oracle1 ledger
        (scheduledPRs cfg.parallelReviews (duePRs cfg ledger prs)) _ hkey_not
      unfold pollCycle
      rw [hpres]
      have hmemf : pr ∈ prs.filter (fun pr => shouldProcessPR cfg (getAuthorLogin pr.author)) :=
        List.mem_filter.mpr ⟨hpr, hsp⟩
      have hnotf : ¬(shaTruthy pr.headRefOid &&
          !(ledgerGet ledger (prKeyOf pr) == pr.headRefOid)) = true := by
        intro hcon
        exact hd (by
          unfold duePRs
          exact List.mem_filter.mpr ⟨hmemf, hcon⟩)
      rw [Bool.and_eq_true] at hnotf
      push_neg at hnotf
      have := hnotf htr
      simpa using this
  have hdue2 : duePRs cfg (pollCycle cfg oracle1 ledger prs).ledger prs = [] := by
    unfold duePRs
    rw [List.filter_eq_nil_iff]
    intro q hq1
    have hsp := List.of_mem_filter hq1
    have hqprs := List.mem_of_mem_filter hq1
    intro hcond
    rw [Bool.and_eq_true] at hcond
    have hstored := hmain q hqprs hsp hcond.1
    rw [hstored] at hcond
    simp at hcond
  exact ⟨hdue2, pollCycle_no_due _ _ _ _ hdue2⟩

/-- C2 witness: a concrete successful first cycle after which the same
item is no longer due. -/
theorem C2_second_cycle_is_noop_witness :
    duePRs ⟨"alice", false, false, 3⟩
      (pollCycle ⟨"alice", false, false, 3⟩ (fun _ => AttemptOutcome.reviewOk "p") []
        [⟨"acme/widgets", 42, "t", AuthorField.str "bob", some "abc1234"⟩]).ledger
      [⟨"acme/widgets", 42, "t", AuthorField.str "bob", some "abc1234"⟩] = [] :=
  (C2_second_cycle_is_noop ⟨"alice", false, false, 3⟩ (fun _ => AttemptOutcome.reviewOk "p")
    (fun _ => AttemptOutcome.reviewFailed) []
    [⟨"acme/widgets", 42, "t", AuthorField.str "bob", some "abc1234"⟩]
    (by decide) (fun _ _ => ⟨"p", rfl⟩)).1

/-- C6: within one cycle the due items are partitioned by repository
(each partition holds exactly that repository's due items in order, and
partitions carry distinct repositories), the chunked schedule keeps at
most parallelReviews partitions in flight per round while covering every
partition exactly once, and the resulting linearization processes exactly
the due items; items inside one partition form a single sequential list. -/
theorem C6_bounded_concurrency_partitioning (cfg : Config) (due : List PR)
    (hc : 0 < cfg.parallelReviews) :
    (∀ ch ∈ chunkList cfg.parallelReviews (groupByRepo due),
      ch.length ≤ cfg.parallelReviews) ∧
    (chunkList cfg.parallelReviews (groupByRepo due)).flatten = groupByRepo due ∧
    (∀ p ∈ groupByRepo due, p.2 = due.filter (fun q => q.repo == p.1)) ∧
    ((groupByRepo due).map Prod.fst).Nodup ∧
    (scheduledPRs cfg.parallelReviews due).Perm due :=
  ⟨chunkList_length_le _ hc _, chunkList_join _ _, groupByRepo_group_eq _,
   groupByRepo_keys_nodup _, scheduledPRs_perm _ _⟩

/-- C6 witness: a concrete schedule of three due items over two
repositories under a concurrency cap of two. -/
theorem C6_bounded_concurrency_partitioning_witness :
    (chunkList 2 (groupByRepo
      [⟨"o/a", 1, "t1", AuthorField.str "x", some "s1"⟩,
       ⟨"o/b", 2, "t2", AuthorField.str "y", some "s2"⟩,
       ⟨"o/a", 3, "t3", AuthorField.str "z", some "s3"⟩])).flatten =
    groupByRepo
      [⟨"o/a", 1, "t1", AuthorField.str "x", some "s1"⟩,
       ⟨"o/b", 2, "t2", AuthorField.str "y", some "s2"⟩,
       ⟨"o/a", 3, "t3", AuthorField.str "z", some "s3"⟩] :=
  (C6_bounded_concurrency_partitioning ⟨"u", false, false, 2⟩
    [⟨"o/a", 1, "t1", AuthorField.str "x", some "s1"⟩,
     ⟨"o/b", 2, "t2", AuthorField.str "y", some "s2"⟩,
     ⟨"o/a", 3, "t3", AuthorField.str "z", some "s3"⟩] (by decide)).2.1

/-- C10: with an empty configured githubUsername, no author is ever
classified as self; with onlyOwnPRs set the author predicate rejects
every item and no item is ever due, and with onlyOwnPRs unset it accepts
every item whatever reviewOwnPRs is. -/
theorem C10_empty_username_filter (cfg : Config) (author : String)
    (ledger : Ledger) (prs : List PR)
    (h : cfg.githubUsername = "") :
    isOwnPR cfg author = false ∧
    (cfg.onlyOwnPRs = true → shouldProcessPR cfg author = false) ∧
    (cfg.onlyOwnPRs = true → duePRs cfg ledger prs = []) ∧
    (cfg.onlyOwnPRs = false → shouldProcessPR cfg author = true) := by
  have hown : ∀ a : String, isOwnPR cfg a = false := by
    intro a; simp [isOwnPR, h]
  refine ⟨hown author, ?_, ?_, ?_⟩
  · intro ho; simp [shouldProcessPR, hown, ho]
  · intro ho
    unfold duePRs
    have h1 : prs.filter (fun pr => shouldProcessPR cfg (getAuthorLogin pr.author)) = [] := by
      rw [List.filter_eq_nil_iff]
      intro pr _
      simp [shouldProcessPR, hown, ho]
    rw [h1]
    rfl
  · intro ho; simp [shouldProcessPR, hown, ho]

/-- C10 witness: with an empty username and onlyOwnPRs set, a concrete
author is rejected. -/
theorem C10_empty_username_filter_witness :
    shouldProcessPR ⟨"", true, false, 3⟩ "bob" = false :=
  (C10_empty_username_filter ⟨"", true, false, 3⟩ "bob" [] [] rfl).2.1 rfl

/-- C4 counterexample: with onlyOwnPRs set and self-identity alice, a
cycle over one PR authored by bob leaves the ledger entry for that item
absent (the poll filters the item out before processPR, so the
ledger-advance for filtered items never runs in a poll cycle), while the
claim states the entry would be advanced to the head revision abc1234. -/
theorem C4_filtered_item_not_advanced_in_poll_cex :
    ledgerGet
      (pollCycle ⟨"alice", true, false, 3⟩ (fun _ => AttemptOutcome.reviewOk "p") []
        [⟨"acme/widgets", 7, "t", AuthorField.str "bob", some "abc1234"⟩]).ledger
      (prKeyOf ⟨"acme/widgets", 7, "t", AuthorField.str "bob", some "abc1234"⟩) = none := by
  have h : duePRs ⟨"alice", true, false, 3⟩ []
      [⟨"acme/widgets", 7, "t", AuthorField.str "bob", some "abc1234"⟩] = [] := by decide
  rw [pollCycle_no_due _ _ _ _ h]
  rfl

/-- C4 amended: an author-filtered item is never attempted in a poll
cycle and the poll cycle leaves its ledger entry unchanged (rather than
advancing it); only a direct processPR invocation on the item — the
manual selected-item sync path — advances its ledger entry to the head
revision without any review attempt. -/
theorem C4_filtering_amended (cfg : Config) (oracle : PR → AttemptOutcome)
    (ledger : Ledger) (prs : List PR) (pr : PR) (outcome : AttemptOutcome)
    (force : Bool) (s : String)
    (hkeys : (prs.map prKeyOf).Nodup)
    (hmem : pr ∈ prs)
    (hsp : shouldProcessPR cfg (getAuthorLogin pr.author) = false) :
    (prKeyOf pr ∉ (pollCycle cfg oracle ledger prs).attempts) ∧
    ledgerGet (pollCycle cfg oracle ledger prs).ledger (prKeyOf pr) =
      ledgerGet ledger (prKeyOf pr) ∧
    (pr.headRefOid = some s → s ≠ "" → ledgerGet ledger (prKeyOf pr) ≠ some s →
      processPR cfg ledger pr force outcome =
        ⟨ledgerSet ledger (prKeyOf pr) s, none, false⟩) := by
  have hkey_not : prKeyOf pr ∉
      (scheduledPRs cfg.parallelReviews (duePRs cfg ledger prs)).map prKeyOf := by
    intro hmem2
    obtain ⟨q, hq, hqk⟩ := List.mem_map.mp hmem2
    have hq_due := (scheduledPRs_perm _ _).mem_iff.mp hq
    obtain ⟨hq_prs, hq_sp, _⟩ := duePRs_mem_facts cfg ledger prs q hq_due
    have hqe : q = pr := List.inj_on_of_nodup_map hkeys hq_prs hmem hqk
    rw [hqe] at hq_sp
    rw [hsp] at hq_sp
    exact Bool.noConfusion hq_sp
  refine ⟨?_, ?_, ?_⟩
  · intro hatt
    exact hkey_not (processList_attempts_mem _ _ _ _ _ hatt)
  · exact processList_get_not_mem _ _ _ _ _ hkey_not
  · intro hsha hs hne
    simp [processPR, hsha, hs, hsp, hne]

/-- C4 witness: the manual-path advancement at a concrete filtered item;
a forced processPR call on bob's PR with onlyOwnPRs set stores the head
revision, returns null and never attempts a review. -/
theorem C4_filtering_amended_witness :
    processPR ⟨"alice", true, false, 3⟩ []
      ⟨"acme/widgets", 7, "t", AuthorField.str "bob", some "abc1234"⟩ true
      AttemptOutcome.reviewFailed =
      ⟨ledgerSet [] (prKeyOf ⟨"acme/widgets", 7, "t", AuthorField.str "bob", some "abc1234"⟩)
        "abc1234", none, false⟩ :=
  (C4_filtering_amended ⟨"alice", true, false, 3⟩ (fun _ => AttemptOutcome.reviewFailed) []
    [⟨"acme/widgets", 7, "t", AuthorField.str "bob", some "abc1234"⟩]
    ⟨"acme/widgets", 7, "t", AuthorField.str "bob", some "abc1234"⟩
    AttemptOutcome.reviewFailed true "abc1234"
    (by decide) (by decide) (by decide)).2.2 rfl (by decide) (by decide)

/-- State shared by the sync entry points: the isPolling flag
(src/state.ts) and the ledger. -/
structure OrchState where
  polling : Bool
  ledger : Ledger
deriving DecidableEq, Repr

/-- Fate of the guarded try block: it either completes, or throws at some
point with the ledger in some intermediate state; either way the finally
clause runs. -/
inductive BodyFate where
  | completes
  | throwsWith (ledgerAtThrow : Ledger)
deriving DecidableEq, Repr

/-- Observable outcome of one poll invocation: the state afterwards, the
cycle result, and whether the guarded body ran at all (false when the
cycle was rejected because one was already running). -/
structure PollOutcome where
  state : OrchState
  result : CycleResult
  ran : Bool
deriving DecidableEq, Repr

/-- Translation of poll (src/poll.ts lines 153-253): if isPolling, log
and return without discovering or processing anything; otherwise set the
flag, run the cycle body (which may throw), and clear the flag in the
finally clause in every case. -/
def poll (cfg : Config) (oracle : PR → AttemptOutcome) (prs : List PR)
    (fate : BodyFate) (s : OrchState) : PollOutcome :=
  if s.polling then ⟨s, ⟨s.ledger, [], []⟩, false⟩
  else
    match fate with
    | BodyFate.completes =>
      let r := pollCycle cfg oracle s.ledger prs
      ⟨⟨false, r.ledger⟩, r, true⟩
    | BodyFate.throwsWith lAt => ⟨⟨false, lAt⟩, ⟨lAt, [], []⟩, true⟩

/-- Result reported by syncSelectedPRs: the already-in-progress rejection
(the thrown Sync already in progress error, reported by the control
surface), a completed run with processed and error counts, or a
propagated throw from the body. -/
inductive SyncResp where
  | rejected
  | finished (processed : Nat) (errors : Nat)
  | threw
deriving DecidableEq, Repr

/-- Lookup in the Map built from all open PRs keyed by repo#number;
later duplicates overwrite earlier ones (src/poll.ts line 123). -/
def prMapGet (prs : List PR) (k : String) : Option PR :=
  (prs.filter (fun pr => prKeyOf pr == k)).getLast?

/-- The loop body of syncSelectedPRs (src/poll.ts lines 125-144): a
selected key missing from the map counts an error; otherwise processPR
runs with the force flag and a returned path counts as processed. -/
def syncSelectedCore (cfg : Config) (oracle : PR → AttemptOutcome) (force : Bool)
    (prs : List PR) : Ledger → List (String × Nat) → Ledger × Nat × Nat
  | l, [] => (l, 0, 0)
  | l, (repo, number) :: rest =>
    match prMapGet prs (repo ++ "#" ++ toString number) with
    | none =>
      let t := syncSelectedCore cfg oracle force prs l rest
      (t.1, t.2.1, t.2.2 + 1)
    | some pr =>
      let r := processPR cfg l pr force (oracle pr)
      let t := syncSelectedCore cfg oracle force prs r.ledger rest
      (t.1, (if r.reviewPath.isSome then 1 else 0) + t.2.1, t.2.2)

/-- Translation of syncSelectedPRs (src/poll.ts lines 105-151): an
in-progress cycle makes it throw the Sync already in progress error
immediately, before any discovery or processing; otherwise it sets the
flag, runs the selected items, and the finally clause clears the flag
whether the body completed or threw. -/
def syncSelectedPRs (cfg : Config) (oracle : PR → AttemptOutcome)
    (selected : List (String × Nat)) (force : Bool) (prs : List PR)
    (fate : BodyFate) (s : OrchState) : OrchState × SyncResp :=
  if s.polling then (s, SyncResp.rejected)
  else
    match fate with
    | BodyFate.completes =>
      let t := syncSelectedCore cfg oracle force prs s.ledger selected
      (⟨false, t.1⟩, SyncResp.finished t.2.1 t.2.2)
    | BodyFate.throwsWith lAt => (⟨false, lAt⟩, SyncResp.threw)

/-- C5: while a cycle is running (polling flag set), a poll request
returns immediately with no discovery, no attempts and no state change,
and a manual selected-item sync is rejected with the in-progress
condition and no state change; and a cycle started from an idle state
always clears the flag on termination, whether its body completed or
threw. -/
theorem C5_cycles_mutually_exclusive (cfg : Config) (oracle : PR → AttemptOutcome)
    (prs : List PR) (selected : List (String × Nat)) (force : Bool)
    (fate : BodyFate) (s : OrchState) :
    (s.polling = true →
      poll cfg oracle prs fate s = ⟨s, ⟨s.ledger, [], []⟩, false⟩ ∧
      syncSelectedPRs cfg oracle selected force prs fate s = (s, SyncResp.rejected)) ∧
    (s.polling = false →
      (poll cfg oracle prs fate s).state.polling = false ∧
      (syncSelectedPRs cfg oracle selected force prs fate s).1.polling = false) := by
  constructor
  · intro h
    constructor <;> simp [poll, syncSelectedPRs, h]
  · intro h
    constructor
    · cases fate <;> simp [poll, h]
    · cases fate <;> simp [syncSelectedPRs, h]

/-- C5 witness: a concrete busy state rejects a new poll without effect,
and a concrete idle state ends with the flag cleared even when the body
throws. -/
theorem C5_cycles_mutually_exclusive_witness :
    poll ⟨"alice", false, false, 3⟩ (fun _ => AttemptOutcome.reviewFailed) []
        BodyFate.completes ⟨true, []⟩ =
      ⟨⟨true, []⟩, ⟨[], [], []⟩, false⟩ ∧
    (poll ⟨"alice", false, false, 3⟩ (fun _ => AttemptOutcome.reviewFailed) []
        (BodyFate.throwsWith []) ⟨false, []⟩).state.polling = false :=
  ⟨(C5_cycles_mutually_exclusive ⟨"alice", false, false, 3⟩
      (fun _ => AttemptOutcome.reviewFailed) [] [] false BodyFate.completes ⟨true, []⟩).1
      rfl |>.1,
   (C5_cycles_mutually_exclusive ⟨"alice", false, false, 3⟩
      (fun _ => AttemptOutcome.reviewFailed) [] [] false (BodyFate.throwsWith [])
      ⟨false, []⟩).2 rfl |>.1⟩

/-- One externally visible operation on the isolation directories. -/
inductive WtOp where
  | removeDir (repo : String) (number : Nat)
  | addDir (repo : String) (number : Nat)
deriving DecidableEq, Repr

/-- Filesystem inventory of isolation directories: the identities whose
worktree directory currently exists. The directory path is the
deterministic getWorktreeDir of (repo, number) (src/review.ts lines
239-241), so an identity has exactly one possible directory. -/
structure WtState where
  dirs : List (String × Nat)
deriving DecidableEq, Repr

/-- Existence test fs.existsSync(worktreeDir) for an identity. -/
def wtExists (s : WtState) (repo : String) (number : Nat) : Bool :=
  (repo, number) ∈ s.dirs

/-- Boolean predicate keeping every directory other than the one of
(repo, number); removal of a path from the directory inventory. -/
def dirNe (repo : String) (number : Nat) (d : String × Nat) : Bool :=
  d ≠ (repo, number)

theorem dirNe_self (repo : String) (number : Nat) :
    dirNe repo number (repo, number) = false := by
  simp [dirNe]

theorem dirNe_of_ne (repo : String) (number : Nat) (d : String × Nat)
    (h : d ≠ (repo, number)) : dirNe repo number d = true := by
  simp [dirNe, h]

/-- Translation of cleanupWorktree (src/review.ts lines 302-328): a
directory already gone is tolerated (early return); otherwise the
directory is removed, by git worktree remove or by the forced filesystem
removal fallback, both ending with the directory gone. -/
def cleanupWorktree (s : WtState) (repo : String) (number : Nat) :
    WtState × List WtOp :=
  if wtExists s repo number then
    (⟨s.dirs.filter (dirNe repo number)⟩, [WtOp.removeDir repo number])
  else (s, [])

/-- Translation of createWorktreeForPR (src/review.ts lines 265-297): an
existing directory for the same identity — stale from a previous run —
is destroyed first via cleanupWorktree, then a fresh directory pinned to
the fetched head commit is created at the deterministic path. -/
def createWorktreeForPR (s : WtState) (repo : String) (number : Nat) :
    WtState × List WtOp :=
  let t1 := if wtExists s repo number then cleanupWorktree s repo number else (s, [])
  (⟨(repo, number) :: t1.1.dirs⟩, t1.2 ++ [WtOp.addDir repo number])

/-- Modelled from the spec: the orchestrator wrapper of one processing
attempt — acquire the isolation directory, run the review attempt, and
always release the directory at the end of the attempt whether the
attempt succeeded, failed or threw. The caller that wires
createWorktreeForPR and cleanupWorktree around a review attempt is not
under src/ (the processPR present checks out in the shared clone
instead); only createWorktreeForPR, cleanupWorktree and the garbage
collector callers are. -/
def processAttempt (s : WtState) (repo : String) (number : Nat)
    (outcome : AttemptOutcome) : WtState × List WtOp :=
  let acquired := createWorktreeForPR s repo number
  let released :=
    match outcome with
    | AttemptOutcome.reviewOk _ => cleanupWorktree acquired.1 repo number
    | AttemptOutcome.reviewFailed => cleanupWorktree acquired.1 repo number
    | AttemptOutcome.threw => cleanupWorktree acquired.1 repo number
  (released.1, acquired.2 ++ released.2)

theorem wtState_filter_not_mem (s : WtState) (repo : String) (number : Nat)
    (h : ¬ wtExists s repo number = true) :
    s.dirs.filter (dirNe repo number) = s.dirs := by
  apply List.filter_eq_self.mpr
  intro d hd
  apply dirNe_of_ne
  intro hde
  simp only [wtExists, decide_eq_true_eq] at h
  exact h (hde ▸ hd)

theorem cleanupWorktree_dirs (w : WtState) (repo : String) (number : Nat) :
    (cleanupWorktree w repo number).1.dirs = w.dirs.filter (dirNe repo number) := by
  by_cases h : wtExists w repo number
  · simp [cleanupWorktree, h]
  · simp only [cleanupWorktree, h, Bool.false_eq_true, ite_false]
    exact (wtState_filter_not_mem w repo number h).symm

theorem createWorktreeForPR_dirs (s : WtState) (repo : String) (number : Nat) :
    (createWorktreeForPR s repo number).1.dirs =
      (repo, number) :: s.dirs.filter (dirNe repo number) := by
  by_cases h : wtExists s repo number
  · simp only [createWorktreeForPR, h, ite_true]
    rw [cleanupWorktree_dirs]
  · simp only [createWorktreeForPR, h, ite_false, Bool.false_eq_true]
    rw [wtState_filter_not_mem s repo number h]

theorem createWorktreeForPR_ops (s : WtState) (repo : String) (number : Nat) :
    (createWorktreeForPR s repo number).2 =
      (if wtExists s repo number then [WtOp.removeDir repo number] else []) ++
        [WtOp.addDir repo number] := by
  by_cases h : wtExists s repo number <;>
    simp [createWorktreeForPR, cleanupWorktree, h]

theorem createWorktreeForPR_exists (s : WtState) (repo : String) (number : Nat) :
    wtExists (createWorktreeForPR s repo number).1 repo number = true := by
  rw [wtExists]
  have h := createWorktreeForPR_dirs s repo number
  rw [h]
  simp

/-- C3: one processing attempt, whatever its outcome, ends with the
identity's isolation directory gone and every other identity's directory
untouched; the operation trace destroys a stale directory before creating
the fresh one exactly when one existed; and afterwards the identity has
zero directories while every other identity keeps its count, so a state
with at most one directory per identity keeps that bound. -/
theorem C3_worktree_attempt_lifecycle (s : WtState) (repo : String) (number : Nat)
    (outcome : AttemptOutcome) :
    (processAttempt s repo number outcome).1.dirs =
      s.dirs.filter (dirNe repo number) ∧
    (processAttempt s repo number outcome).2 =
      (if wtExists s repo number then
        [WtOp.removeDir repo number, WtOp.addDir repo number, WtOp.removeDir repo number]
      else [WtOp.addDir repo number, WtOp.removeDir repo number]) ∧
    List.count (repo, number) (processAttempt s repo number outcome).1.dirs = 0 ∧
    (∀ d, d ≠ (repo, number) →
      List.count d (processAttempt s repo number outcome).1.dirs =
        List.count d s.dirs) := by
  have hrel : (processAttempt s repo number outcome).1 =
      (cleanupWorktree (createWorktreeForPR s repo number).1 repo number).1 := by
    cases outcome <;> rfl
  have hops : (processAttempt s repo number outcome).2 =
      (createWorktreeForPR s repo number).2 ++
        (cleanupWorktree (createWorktreeForPR s repo number).1 repo number).2 := by
    cases outcome <;> rfl
  have hdirs : (processAttempt s repo number outcome).1.dirs =
      s.dirs.filter (dirNe repo number) := by
    rw [hrel, cleanupWorktree_dirs, createWorktreeForPR_dirs, List.filter_cons,
      dirNe_self]
    simp only [Bool.false_eq_true, ite_false]
    apply List.filter_eq_self.mpr
    intro d hd
    exact List.of_mem_filter hd
  refine ⟨hdirs, ?_, ?_, ?_⟩
  · rw [hops, createWorktreeForPR_ops]
    have hcl : (cleanupWorktree (createWorktreeForPR s repo number).1 repo number).2 =
        [WtOp.removeDir repo number] := by
      rw [cleanupWorktree, if_pos (createWorktreeForPR_exists s repo number)]
    rw [hcl]
    by_cases h : wtExists s repo number <;> simp [h]
  · rw [hdirs]
    apply List.count_eq_zero.mpr
    intro hmem
    have := List.of_mem_filter hmem
    rw [dirNe_self] at this
    exact Bool.noConfusion this
  · intro d hd
    rw [hdirs]
    exact List.count_filter (dirNe_of_ne repo number d hd)

/-- C3 witness: a concrete attempt starting from a state with a stale
directory for the identity destroys it, creates a fresh one and releases
it at the end. -/
theorem C3_worktree_attempt_lifecycle_witness :
    (processAttempt ⟨[("acme/widgets", 7)]⟩ "acme/widgets" 7
      AttemptOutcome.reviewFailed).1.dirs = [] ∧
    List.count ("other", 1)
      (processAttempt ⟨[("other", 1), ("acme/widgets", 7)]⟩ "acme/widgets" 7
        AttemptOutcome.threw).1.dirs = 1 := by
  constructor
  · have h := (C3_worktree_attempt_lifecycle ⟨[("acme/widgets", 7)]⟩ "acme/widgets" 7
      AttemptOutcome.reviewFailed).1
    rw [h]
    decide
  · have h := (C3_worktree_attempt_lifecycle ⟨[("other", 1), ("acme/widgets", 7)]⟩
      "acme/widgets" 7 AttemptOutcome.threw).2.2.2 ("other", 1) (by decide)
    rw [h]
    decide

/-- Split of a character list at its last hash character: the characters
before it and the hash-free characters after it, or none when no hash
occurs. -/
def splitLastHash : List Char → Option (List Char × List Char)
  | [] => none
  | c :: cs =>
    match splitLastHash cs with
    | some t => some (c :: t.1, t.2)
    | none => if c = '#' then some ([], cs) else none

/-- Numeric value of a digit string, as parseInt reads it. -/
def digitsToNat (cs : List Char) : Nat :=
  cs.foldl (fun acc c => acc * 10 + (c.toNat - 48)) 0

/-- Parse of a ledger key against the regular expression (.+)#(\d+)$ of
the cleanup scan (src/cleanup.ts line 15): greedy matching makes the
number group the text after the last hash sign, which must be one or
more digits, with nonempty text before that hash; keys not of this shape
are skipped. -/
def parseKey (s : String) : Option (String × Nat) :=
  match splitLastHash s.data with
  | none => none
  | some t =>
    if t.2 ≠ [] ∧ t.2.all (fun c => c.isDigit) ∧ t.1 ≠ [] then
      some (String.mk t.1, digitsToNat t.2)
    else none

/-- Decision of cleanupClosedPRs for one ledger entry: collected for
removal exactly when its key parses and the upstream oracle does not
report the item open (isPROpen, src/github.ts lines 128-139, returns
false for closed, merged or unqueryable items). -/
def closedRemovable (openQ : String → Nat → Bool) (e : String × String) : Bool :=
  match parseKey e.1 with
  | some rn => !(openQ rn.1 rn.2)
  | none => false

/-- Translation of cleanupClosedPRs (src/cleanup.ts lines 10-39): every
parseable ledger key is queried for open state; the entries observed not
open are collected, then each collected entry is deleted from the ledger
and cleanupWorktree releases its lingering isolation directory. Returns
the ledger, the worktree inventory and the removed identities. -/
def cleanupClosedPRs (openQ : String → Nat → Bool) (ledger : Ledger) (wt : WtState) :
    Ledger × WtState × List (String × Nat) :=
  let removed := (ledger.filter (closedRemovable openQ)).filterMap (fun e => parseKey e.1)
  (ledger.filter (fun e => !(closedRemovable openQ e)),
   removed.foldl (fun w rn => (cleanupWorktree w rn.1 rn.2).1) wt,
   removed)

theorem cleanupWorktree_fold_dirs (ids : List (String × Nat)) (w : WtState) :
    (ids.foldl (fun w rn => (cleanupWorktree w rn.1 rn.2).1) w).dirs =
      w.dirs.filter (fun d => d ∉ ids) := by
  induction ids generalizing w with
  | nil =>
    simp only [List.foldl_nil]
    symm
    apply List.filter_eq_self.mpr
    intro d _
    simp
  | cons id rest ih =>
    simp only [List.foldl_cons]
    rw [ih, cleanupWorktree_dirs, List.filter_filter]
    apply List.filter_congr
    intro d _
    by_cases h1 : d = id <;> by_cases h2 : d ∈ rest <;>
      simp [dirNe, h1, h2]

/-- C9: closed-item reclamation retains exactly the ledger entries whose
key fails to parse or whose item the upstream oracle reports open,
keeping them unchanged and in order; an entry with a parseable key is
removed (and its identity collected) exactly when the oracle does not
report it open; and every collected identity's lingering isolation
directory is released while all other directories stay. -/
theorem C9_closed_item_reclamation (openQ : String → Nat → Bool) (ledger : Ledger)
    (wt : WtState) :
    (cleanupClosedPRs openQ ledger wt).1 = ledger.filter (fun e =>
      match parseKey e.1 with
      | some rn => openQ rn.1 rn.2
      | none => true) ∧
    (∀ e ∈ ledger, ∀ repo n, parseKey e.1 = some (repo, n) →
      (openQ repo n = true → e ∈ (cleanupClosedPRs openQ ledger wt).1) ∧
      (openQ repo n = false → (repo, n) ∈ (cleanupClosedPRs openQ ledger wt).2.2)) ∧
    (cleanupClosedPRs openQ ledger wt).2.1.dirs =
      wt.dirs.filter (fun d => d ∉ (cleanupClosedPRs openQ ledger wt).2.2) := by
  refine ⟨?_, ?_, ?_⟩
  · apply List.filter_congr
    intro e _
    rw [closedRemovable]
    cases parseKey e.1 with
    | none => simp
    | some rn => simp
  · intro e he repo n hparse
    constructor
    · intro hopen
      apply List.mem_filter.mpr
      refine ⟨he, ?_⟩
      simp [closedRemovable, hparse, hopen]
    · intro hclosed
      apply List.mem_filterMap.mpr
      refine ⟨e, ?_, hparse⟩
      apply List.mem_filter.mpr
      refine ⟨he, ?_⟩
      simp [closedRemovable, hparse, hclosed]
  · exact cleanupWorktree_fold_dirs _ _

/-- C9 witness: with an oracle closing acme/widgets number 7 and keeping
acme/widgets number 8 open, only the closed entry is removed from a
concrete ledger. -/
theorem C9_closed_item_reclamation_witness :
    ("acme/widgets#8", "def5678") ∈
      (cleanupClosedPRs (fun _ n => n == 8)
        [("acme/widgets#7", "abc1234"), ("acme/widgets#8", "def5678")]
        ⟨[("acme/widgets", 7)]⟩).1 :=
  ((C9_closed_item_reclamation (fun _ n => n == 8)
      [("acme/widgets#7", "abc1234"), ("acme/widgets#8", "def5678")]
      ⟨[("acme/widgets", 7)]⟩).2.1
    ("acme/widgets#8", "def5678") (by decide) "acme/widgets" 8 (by decide)).1 (by decide)

/-- One entry of an item's review directory: a version file identified by
its creation timestamp (the filename v-TIMESTAMP.md produced by
getVersionFilename is the fixed-width digit encoding of the ISO creation
timestamp, so filename order is creation-time order), or another file
such as meta.json. -/
inductive DirEntry where
  | version (t : Nat)
  | otherFile (name : String)
deriving DecidableEq, Repr

/-- Creation timestamps of the version files of a directory (the
readdir filter on v- prefixed .md names), in directory order. -/
def versionTimes (dir : List DirEntry) : List Nat :=
  dir.filterMap (fun e => match e with
    | DirEntry.version t => some t
    | DirEntry.otherFile _ => none)

/-- Translation of listVersions (server.js review store): the version
files sorted newest first — reverse lexicographic filename order, which
on the fixed-width digit filenames is descending creation-timestamp
order. -/
def listVersions (dir : List DirEntry) : List Nat :=
  List.insertionSort (fun a b => b ≤ a) (versionTimes dir)

/-- Translation of pruneVersions (server.js review store): nothing is
deleted when the version count is within maxReviewVersions; otherwise
the versions after the first maxReviewVersions of the newest-first
listing are deleted from the directory file by file. -/
def pruneVersions (maxReviewVersions : Nat) (dir : List DirEntry) : List DirEntry :=
  let versions := listVersions dir
  if versions.length ≤ maxReviewVersions then dir
  else
    let toDelete := versions.drop maxReviewVersions
    dir.filter (fun e => match e with
      | DirEntry.version t => t ∉ toDelete
      | DirEntry.otherFile _ => true)

theorem listVersions_sorted (dir : List DirEntry) :
    (listVersions dir).Sorted (fun a b : Nat => b ≤ a) := by
  haveI : IsTotal Nat (fun a b : Nat => b ≤ a) := ⟨fun a b => le_total b a⟩
  haveI : IsTrans Nat (fun a b : Nat => b ≤ a) := ⟨fun _ _ _ h1 h2 => le_trans h2 h1⟩
  exact List.sorted_insertionSort _ _

theorem listVersions_perm (dir : List DirEntry) :
    (listVersions dir).Perm (versionTimes dir) :=
  List.perm_insertionSort _ _

theorem versionTimes_filter (dir : List DirEntry) (p : Nat → Bool) :
    versionTimes (dir.filter (fun e => match e with
      | DirEntry.version t => p t
      | DirEntry.otherFile _ => true)) = (versionTimes dir).filter p := by
  induction dir with
  | nil => rfl
  | cons e rest ih =>
    cases e with
    | version t =>
      by_cases h : p t <;> simp [versionTimes, List.filter_cons, h, ih, versionTimes] at ih ⊢ <;>
        exact ih
    | otherFile name => simp [versionTimes, List.filter_cons, ih, versionTimes] at ih ⊢; exact ih

/-- C7: pruning leaves at most maxReviewVersions version files; the
retained versions are, as a multiset, exactly the first
maxReviewVersions of the newest-first listing — the newest ones by
creation timestamp, every retained version being at least as new as
every deleted one — and a directory already within the limit is returned
unchanged, deleting nothing. -/
theorem C7_version_pruning (maxV : Nat) (dir : List DirEntry)
    (hnd : (versionTimes dir).Nodup) :
    (versionTimes (pruneVersions maxV dir)).length ≤ maxV ∧
    (versionTimes (pruneVersions maxV dir)).Perm ((listVersions dir).take maxV) ∧
    (∀ a ∈ (listVersions dir).take maxV, ∀ b ∈ (listVersions dir).drop maxV, b ≤ a) ∧
    ((versionTimes dir).length ≤ maxV → pruneVersions maxV dir = dir) := by
  have hlen : (listVersions dir).length = (versionTimes dir).length :=
    (listVersions_perm dir).length_eq
  have hnd_sorted : (listVersions dir).Nodup :=
    ((listVersions_perm dir).nodup_iff).mpr hnd
  have hsplit := List.take_append_drop maxV (listVersions dir)
  have hnd_app : ((listVersions dir).take maxV ++ (listVersions dir).drop maxV).Nodup := by
    rw [hsplit]; exact hnd_sorted
  have hdisj : ∀ a ∈ (listVersions dir).take maxV, a ∉ (listVersions dir).drop maxV :=
    fun a ha hb => (List.nodup_append.mp hnd_app).2.2 ha hb
  have hperm : (versionTimes (pruneVersions maxV dir)).Perm
      ((listVersions dir).take maxV) := by
    by_cases hle : (listVersions dir).length ≤ maxV
    · rw [pruneVersions, if_pos hle, List.take_of_length_le hle]
      exact (listVersions_perm dir).symm
    · rw [pruneVersions, if_neg hle, versionTimes_filter]
      have h1 : ((versionTimes dir).filter
          (fun t => t ∉ (listVersions dir).drop maxV)).Perm
          ((listVersions dir).filter (fun t => t ∉ (listVersions dir).drop maxV)) :=
        List.Perm.filter _ (listVersions_perm dir).symm
      refine h1.trans ?_
      have h2 : (listVersions dir).filter (fun t => t ∉ (listVersions dir).drop maxV) =
          (listVersions dir).take maxV := by
        set D := (listVersions dir).drop maxV with hD
        set T := (listVersions dir).take maxV with hT
        rw [← hsplit, List.filter_append]
        have h3 : T.filter (fun t => t ∉ D) = T := by
          apply List.filter_eq_self.mpr
          intro a ha
          simpa using hdisj a ha
        have h4 : D.filter (fun t => t ∉ D) = [] := by
          apply List.filter_eq_nil_iff.mpr
          intro a ha
          simpa using ha
        rw [h3, h4, List.append_nil]
      rw [h2]
  refine ⟨?_, hperm, ?_, ?_⟩
  · rw [hperm.length_eq, List.length_take]
    exact min_le_left _ _
  · have hs := listVersions_sorted dir
    rw [← hsplit] at hs
    exact fun a ha b hb => (List.pairwise_append.mp hs).2.2 a ha b hb
  · intro h
    rw [pruneVersions, if_pos (by rw [hlen]; exact h)]

/-- C7 witness: a directory holding versions 1, 2 and 3 plus a metadata
file, pruned with a limit of two, retains exactly the two newest
versions. -/
theorem C7_version_pruning_witness :
    (versionTimes (pruneVersions 2
      [DirEntry.version 3, DirEntry.otherFile "meta.json",
       DirEntry.version 1, DirEntry.version 2])).Perm
      ((listVersions
        [DirEntry.version 3, DirEntry.otherFile "meta.json",
         DirEntry.version 1, DirEntry.version 2]).take 2) :=
  (C7_version_pruning 2
    [DirEntry.version 3, DirEntry.otherFile "meta.json",
     DirEntry.version 1, DirEntry.version 2] (by decide)).2.1

/-- Runtime JSON value reaching the settings layer: TypeScript types are
erased at the HTTP boundary, so a field may hold a number, a string, a
boolean, an array of strings (the only array field is repoPatterns) or
null. -/
inductive SVal where
  | num (n : Int)
  | str (s : String)
  | boolVal (b : Bool)
  | arr (elems : List String)
  | null
deriving DecidableEq, Repr

/-- JS ToNumber coercion used implicitly by the greater-than checks;
none models NaN. String conversion is approximated by integer parsing,
the only shape reaching these comparisons. -/
def SVal.toNumber : SVal → Option Int
  | SVal.num n => some n
  | SVal.str s => if s = "" then some 0 else s.toInt?
  | SVal.boolVal b => some (if b then 1 else 0)
  | SVal.arr [] => some 0
  | SVal.arr [x] => if x = "" then some 0 else x.toInt?
  | SVal.arr _ => none
  | SVal.null => some 0

/-- The JS comparison v > k (NaN compares false). -/
def jsGT (v : SVal) (k : Int) : Bool :=
  match v.toNumber with
  | some n => n > k
  | none => false

/-- The check typeof v !== number || v < lo used by every lower bound in
validateSettings: true for any non-number and for numbers below lo. -/
def numBelow (v : SVal) (lo : Int) : Bool :=
  match v with
  | SVal.num n => n < lo
  | _ => true

/-- One field-level validation error (src/settings.ts, ValidationError). -/
structure ValidationError where
  field : String
  message : String
deriving DecidableEq, Repr

/-- Partial settings update: a field is none when the request omits it
(Partial of EditableSettings). -/
structure SettingsUpdate where
  githubUsername : Option SVal
  repoPatterns : Option SVal
  pollInterval : Option SVal
  syncMode : Option SVal
  onlyOwnPRs : Option SVal
  reviewOwnPRs : Option SVal
  parallelReviews : Option SVal
  maxReviewVersions : Option SVal
  contextVersions : Option SVal
  cleanupIntervalHours : Option SVal
  cleanupAgeDays : Option SVal
deriving DecidableEq, Repr

/-- The in-memory editableConfig object; fields hold runtime values since
Object.assign copies whatever the update carried. -/
structure EditableConfig where
  githubUsername : SVal
  repoPatterns : SVal
  pollInterval : SVal
  syncMode : SVal
  onlyOwnPRs : SVal
  reviewOwnPRs : SVal
  parallelReviews : SVal
  maxReviewVersions : SVal
  contextVersions : SVal
  cleanupIntervalHours : SVal
  cleanupAgeDays : SVal
deriving DecidableEq, Repr

/-- Validation block for pollInterval (src/settings.ts lines 46-53). -/
def vPollInterval (v : SVal) : List ValidationError :=
  (if numBelow v 10 then
    [ValidationError.mk "pollInterval" "Poll interval must be at least 10 seconds"]
  else []) ++
  (if jsGT v 3600 then
    [ValidationError.mk "pollInterval" "Poll interval cannot exceed 3600 seconds"]
  else [])

/-- Validation block for parallelReviews (src/settings.ts lines 55-62). -/
def vParallelReviews (v : SVal) : List ValidationError :=
  (if numBelow v 1 then
    [ValidationError.mk "parallelReviews" "Parallel reviews must be at least 1"]
  else []) ++
  (if jsGT v 10 then
    [ValidationError.mk "parallelReviews" "Parallel reviews cannot exceed 10"]
  else [])

/-- Validation block for maxReviewVersions (src/settings.ts lines 64-71). -/
def vMaxReviewVersions (v : SVal) : List ValidationError :=
  (if numBelow v 1 then
    [ValidationError.mk "maxReviewVersions" "Max review versions must be at least 1"]
  else []) ++
  (if jsGT v 100 then
    [ValidationError.mk "maxReviewVersions" "Max review versions cannot exceed 100"]
  else [])

/-- Validation block for contextVersions (src/settings.ts lines 73-80). -/
def vContextVersions (v : SVal) : List ValidationError :=
  (if numBelow v 0 then
    [ValidationError.mk "contextVersions" "Context versions cannot be negative"]
  else []) ++
  (if jsGT v 10 then
    [ValidationError.mk "contextVersions" "Context versions cannot exceed 10"]
  else [])

/-- Validation block for cleanupIntervalHours (src/settings.ts lines 82-86). -/
def vCleanupIntervalHours (v : SVal) : List ValidationError :=
  if numBelow v 1 then
    [ValidationError.mk "cleanupIntervalHours" "Cleanup interval must be at least 1 hour"]
  else []

/-- Validation block for cleanupAgeDays (src/settings.ts lines 88-92). -/
def vCleanupAgeDays (v : SVal) : List ValidationError :=
  if numBelow v 1 then
    [ValidationError.mk "cleanupAgeDays" "Cleanup age must be at least 1 day"]
  else []

/-- Validation block for syncMode (src/settings.ts lines 94-98). -/
def vSyncMode (v : SVal) : List ValidationError :=
  if v ≠ SVal.str "auto" ∧ v ≠ SVal.str "manual" then
    [ValidationError.mk "syncMode" "Sync mode must be auto or manual"]
  else []

/-- Shape test for a slash-delimited pattern whose inner regex the
validity oracle rv rejects (src/settings.ts lines 105-112; rv stands for
the RegExp constructor not throwing). -/
def badPattern (rv : String → Bool) (pattern : String) : Bool :=
  pattern.startsWith "/" && pattern.endsWith "/" && decide (pattern.length > 2) &&
    !(rv ((pattern.drop 1).dropRight 1))

/-- Validation block for repoPatterns (src/settings.ts lines 100-115):
a non-array is one error; otherwise each bad slash-delimited pattern
contributes one error. -/
def vRepoPatterns (rv : String → Bool) (v : SVal) : List ValidationError :=
  match v with
  | SVal.arr pats =>
    pats.foldr (fun pattern acc =>
      (if badPattern rv pattern then
        [ValidationError.mk "repoPatterns" ("Invalid regex pattern: " ++ pattern)]
      else []) ++ acc) []
  | _ => [ValidationError.mk "repoPatterns" "Repo patterns must be an array"]

/-- Application of one field block to an optional field of the update. -/
def optCheck (f : SVal → List ValidationError) : Option SVal → List ValidationError
  | none => []
  | some v => f v

/-- Translation of validateSettings (src/settings.ts lines 43-118):
concatenation of the per-field blocks in source order; untouched and
unvalidated fields contribute nothing. -/
def validateSettings (rv : String → Bool) (settings : SettingsUpdate) :
    List ValidationError :=
  optCheck vPollInterval settings.pollInterval ++
  optCheck vParallelReviews settings.parallelReviews ++
  optCheck vMaxReviewVersions settings.maxReviewVersions ++
  optCheck vContextVersions settings.contextVersions ++
  optCheck vCleanupIntervalHours settings.cleanupIntervalHours ++
  optCheck vCleanupAgeDays settings.cleanupAgeDays ++
  optCheck vSyncMode settings.syncMode ++
  optCheck (vRepoPatterns rv) settings.repoPatterns

/-- Object.assign(editableConfig, updates): every present field of the
update overwrites the config field. -/
def applySettings (c : EditableConfig) (u : SettingsUpdate) : EditableConfig :=
  ⟨u.githubUsername.getD c.githubUsername,
   u.repoPatterns.getD c.repoPatterns,
   u.pollInterval.getD c.pollInterval,
   u.syncMode.getD c.syncMode,
   u.onlyOwnPRs.getD c.onlyOwnPRs,
   u.reviewOwnPRs.getD c.reviewOwnPRs,
   u.parallelReviews.getD c.parallelReviews,
   u.maxReviewVersions.getD c.maxReviewVersions,
   u.contextVersions.getD c.contextVersions,
   u.cleanupIntervalHours.getD c.cleanupIntervalHours,
   u.cleanupAgeDays.getD c.cleanupAgeDays⟩

/-- Translation of updateSettings (src/settings.ts lines 171-184): any
validation error returns the error list with the config object and the
persisted file untouched; otherwise all updates are assigned together
and the whole config is persisted. -/
def updateSettings (rv : String → Bool) (config : EditableConfig)
    (file : Option EditableConfig) (updates : SettingsUpdate) :
    List ValidationError × EditableConfig × Option EditableConfig :=
  if (validateSettings rv updates).length > 0 then
    (validateSettings rv updates, config, file)
  else ([], applySettings config updates, some (applySettings config updates))

theorem fields_vPollInterval : ∀ v : SVal, ∀ e ∈ vPollInterval v,
    e.field = "pollInterval" := by
  intro v e he
  unfold vPollInterval at he
  rcases List.mem_append.mp he with h | h <;> split at h <;> simp_all

theorem fields_vParallelReviews : ∀ v : SVal, ∀ e ∈ vParallelReviews v,
    e.field = "parallelReviews" := by
  intro v e he
  unfold vParallelReviews at he
  rcases List.mem_append.mp he with h | h <;> split at h <;> simp_all

theorem fields_vMaxReviewVersions : ∀ v : SVal, ∀ e ∈ vMaxReviewVersions v,
    e.field = "maxReviewVersions" := by
  intro v e he
  unfold vMaxReviewVersions at he
  rcases List.mem_append.mp he with h | h <;> split at h <;> simp_all

theorem fields_vContextVersions : ∀ v : SVal, ∀ e ∈ vContextVersions v,
    e.field = "contextVersions" := by
  intro v e he
  unfold vContextVersions at he
  rcases List.mem_append.mp he with h | h <;> split at h <;> simp_all

theorem fields_vCleanupIntervalHours : ∀ v : SVal, ∀ e ∈ vCleanupIntervalHours v,
    e.field = "cleanupIntervalHours" := by
  intro v e he
  unfold vCleanupIntervalHours at he
  split at he <;> simp_all

theorem fields_vCleanupAgeDays : ∀ v : SVal, ∀ e ∈ vCleanupAgeDays v,
    e.field = "cleanupAgeDays" := by
  intro v e he
  unfold vCleanupAgeDays at he
  split at he <;> simp_all

theorem fields_vSyncMode : ∀ v : SVal, ∀ e ∈ vSyncMode v, e.field = "syncMode" := by
  intro v e he
  unfold vSyncMode at he
  split at he <;> simp_all

theorem fields_patFold (rv : String → Bool) (pats : List String) :
    ∀ e ∈ pats.foldr (fun pattern acc =>
      (if badPattern rv pattern then
        [ValidationError.mk "repoPatterns" ("Invalid regex pattern: " ++ pattern)]
      else []) ++ acc) [], e.field = "repoPatterns" := by
  induction pats with
  | nil => intro e he; simp at he
  | cons p rest ih =>
    intro e he
    simp only [List.foldr_cons, List.mem_append] at he
    rcases he with h | h
    · split at h <;> simp_all
    · exact ih e h

theorem fields_vRepoPatterns (rv : String → Bool) : ∀ v : SVal,
    ∀ e ∈ vRepoPatterns rv v, e.field = "repoPatterns" := by
  intro v e he
  cases v with
  | arr pats =>
    simp only [vRepoPatterns] at he
    exact fields_patFold rv pats e he
  | num n => simp only [vRepoPatterns, List.mem_singleton] at he; simp [he]
  | str s2 => simp only [vRepoPatterns, List.mem_singleton] at he; simp [he]
  | boolVal b => simp only [vRepoPatterns, List.mem_singleton] at he; simp [he]
  | null => simp only [vRepoPatterns, List.mem_singleton] at he; simp [he]

theorem vPollInterval_ne (v : SVal) :
    vPollInterval v ≠ [] ↔ (numBelow v 10 = true ∨ jsGT v 3600 = true) := by
  unfold vPollInterval
  by_cases h1 : numBelow v 10 <;> by_cases h2 : jsGT v 3600 <;> simp [h1, h2]

theorem vParallelReviews_ne (v : SVal) :
    vParallelReviews v ≠ [] ↔ (numBelow v 1 = true ∨ jsGT v 10 = true) := by
  unfold vParallelReviews
  by_cases h1 : numBelow v 1 <;> by_cases h2 : jsGT v 10 <;> simp [h1, h2]

theorem vMaxReviewVersions_ne (v : SVal) :
    vMaxReviewVersions v ≠ [] ↔ (numBelow v 1 = true ∨ jsGT v 100 = true) := by
  unfold vMaxReviewVersions
  by_cases h1 : numBelow v 1 <;> by_cases h2 : jsGT v 100 <;> simp [h1, h2]

theorem vContextVersions_ne (v : SVal) :
    vContextVersions v ≠ [] ↔ (numBelow v 0 = true ∨ jsGT v 10 = true) := by
  unfold vContextVersions
  by_cases h1 : numBelow v 0 <;> by_cases h2 : jsGT v 10 <;> simp [h1, h2]

theorem vCleanupIntervalHours_ne (v : SVal) :
    vCleanupIntervalHours v ≠ [] ↔ numBelow v 1 = true := by
  unfold vCleanupIntervalHours
  by_cases h : numBelow v 1 <;> simp [h]

theorem vCleanupAgeDays_ne (v : SVal) :
    vCleanupAgeDays v ≠ [] ↔ numBelow v 1 = true := by
  unfold vCleanupAgeDays
  by_cases h : numBelow v 1 <;> simp [h]

theorem vSyncMode_ne (v : SVal) :
    vSyncMode v ≠ [] ↔ (v ≠ SVal.str "auto" ∧ v ≠ SVal.str "manual") := by
  unfold vSyncMode
  split <;> simp_all

theorem patFold_ne (rv : String → Bool) (pats : List String) :
    pats.foldr (fun pattern acc =>
      (if badPattern rv pattern then
        [ValidationError.mk "repoPatterns" ("Invalid regex pattern: " ++ pattern)]
      else []) ++ acc) [] ≠ [] ↔ ∃ p ∈ pats, badPattern rv p = true := by
  induction pats with
  | nil => simp
  | cons p rest ih =>
    by_cases h : badPattern rv p
    · simp [h]
    · simp [h, ih]

theorem vRepoPatterns_ne (rv : String → Bool) (v : SVal) :
    vRepoPatterns rv v ≠ [] ↔
      ((∀ pats, v ≠ SVal.arr pats) ∨
        ∃ pats, v = SVal.arr pats ∧ ∃ p ∈ pats, badPattern rv p = true) := by
  cases v with
  | arr pats =>
    simp only [vRepoPatterns]
    rw [patFold_ne]
    constructor
    · intro h
      exact Or.inr ⟨pats, rfl, h⟩
    · rintro (h | ⟨pats2, hp, hbad⟩)
      · exact absurd rfl (h pats)
      · injection hp with hpe
        exact hpe ▸ hbad
  | num n => simp [vRepoPatterns]
  | str s2 => simp [vRepoPatterns]
  | boolVal b => simp [vRepoPatterns]
  | null => simp [vRepoPatterns]

theorem mem_field_append (l1 l2 : List ValidationError) (f : String) :
    (∃ e ∈ l1 ++ l2, e.field = f) ↔
      (∃ e ∈ l1, e.field = f) ∨ (∃ e ∈ l2, e.field = f) := by
  constructor
  · rintro ⟨e, he, hf⟩
    rcases List.mem_append.mp he with h | h
    · exact Or.inl ⟨e, h, hf⟩
    · exact Or.inr ⟨e, h, hf⟩
  · rintro (⟨e, he, hf⟩ | ⟨e, he, hf⟩)
    · exact ⟨e, List.mem_append_left _ he, hf⟩
    · exact ⟨e, List.mem_append_right _ he, hf⟩

theorem exists_field_optCheck (f g : String) (vf : SVal → List ValidationError)
    (hall : ∀ v, ∀ e ∈ vf v, e.field = g) (o : Option SVal) :
    (∃ e ∈ optCheck vf o, e.field = f) ↔ (g = f ∧ ∃ v, o = some v ∧ vf v ≠ []) := by
  cases o with
  | none => simp [optCheck]
  | some v =>
    simp only [optCheck]
    constructor
    · rintro ⟨e, he, hef⟩
      refine ⟨(hall v e he).symm.trans hef, v, rfl, ?_⟩
      intro hnil
      rw [hnil] at he
      exact (List.not_mem_nil e) he
    · rintro ⟨hgf, v2, hv2, hne⟩
      injection hv2 with hv2e
      subst hv2e
      obtain ⟨e, he⟩ := List.exists_mem_of_ne_nil _ hne
      exact ⟨e, he, (hall v e he).trans hgf⟩

theorem validate_mem_field (rv : String → Bool) (u : SettingsUpdate) (f : String) :
    (∃ e ∈ validateSettings rv u, e.field = f) ↔
    (("pollInterval" = f ∧ ∃ v, u.pollInterval = some v ∧ vPollInterval v ≠ []) ∨
     ("parallelReviews" = f ∧ ∃ v, u.parallelReviews = some v ∧ vParallelReviews v ≠ []) ∨
     ("maxReviewVersions" = f ∧
       ∃ v, u.maxReviewVersions = some v ∧ vMaxReviewVersions v ≠ []) ∨
     ("contextVersions" = f ∧ ∃ v, u.contextVersions = some v ∧ vContextVersions v ≠ []) ∨
     ("cleanupIntervalHours" = f ∧
       ∃ v, u.cleanupIntervalHours = some v ∧ vCleanupIntervalHours v ≠ []) ∨
     ("cleanupAgeDays" = f ∧ ∃ v, u.cleanupAgeDays = some v ∧ vCleanupAgeDays v ≠ []) ∨
     ("syncMode" = f ∧ ∃ v, u.syncMode = some v ∧ vSyncMode v ≠ []) ∨
     ("repoPatterns" = f ∧ ∃ v, u.repoPatterns = some v ∧ vRepoPatterns rv v ≠ [])) := by
  unfold validateSettings
  rw [mem_field_append, mem_field_append, mem_field_append, mem_field_append,
    mem_field_append, mem_field_append, mem_field_append,
    exists_field_optCheck f "pollInterval" _ fields_vPollInterval,
    exists_field_optCheck f "parallelReviews" _ fields_vParallelReviews,
    exists_field_optCheck f "maxReviewVersions" _ fields_vMaxReviewVersions,
    exists_field_optCheck f "contextVersions" _ fields_vContextVersions,
    exists_field_optCheck f "cleanupIntervalHours" _ fields_vCleanupIntervalHours,
    exists_field_optCheck f "cleanupAgeDays" _ fields_vCleanupAgeDays,
    exists_field_optCheck f "syncMode" _ fields_vSyncMode,
    exists_field_optCheck f "repoPatterns" _ (fields_vRepoPatterns rv)]
  simp only [or_assoc]

/-- C8: a settings update with any validation failure is rejected
wholesale — the in-memory config and the persisted file are unchanged and
the error list names every offending field (and only offending fields:
for each validated field, an error naming it exists exactly when the
field is present and out of range, of the wrong type, an unknown sync
mode, or an invalid slash-delimited regex pattern); an update with no
failure applies every requested field together and persists the whole
configuration. -/
theorem C8_settings_update_wholesale (rv : String → Bool) (config : EditableConfig)
    (file : Option EditableConfig) (u : SettingsUpdate) :
    (validateSettings rv u ≠ [] →
      updateSettings rv config file u = (validateSettings rv u, config, file)) ∧
    (validateSettings rv u = [] →
      updateSettings rv config file u =
        ([], applySettings config u, some (applySettings config u))) ∧
    (∀ f : String, (∃ e ∈ validateSettings rv u, e.field = f) ↔
      (("pollInterval" = f ∧ ∃ v, u.pollInterval = some v ∧
          (numBelow v 10 = true ∨ jsGT v 3600 = true)) ∨
       ("parallelReviews" = f ∧ ∃ v, u.parallelReviews = some v ∧
          (numBelow v 1 = true ∨ jsGT v 10 = true)) ∨
       ("maxReviewVersions" = f ∧ ∃ v, u.maxReviewVersions = some v ∧
          (numBelow v 1 = true ∨ jsGT v 100 = true)) ∨
       ("contextVersions" = f ∧ ∃ v, u.contextVersions = some v ∧
          (numBelow v 0 = true ∨ jsGT v 10 = true)) ∨
       ("cleanupIntervalHours" = f ∧ ∃ v, u.cleanupIntervalHours = some v ∧
          numBelow v 1 = true) ∨
       ("cleanupAgeDays" = f ∧ ∃ v, u.cleanupAgeDays = some v ∧
          numBelow v 1 = true) ∨
       ("syncMode" = f ∧ ∃ v, u.syncMode = some v ∧
          v ≠ SVal.str "auto" ∧ v ≠ SVal.str "manual") ∨
       ("repoPatterns" = f ∧ ∃ v, u.repoPatterns = some v ∧
          ((∀ pats, v ≠ SVal.arr pats) ∨
            ∃ pats, v = SVal.arr pats ∧ ∃ p ∈ pats, badPattern rv p = true)))) := by
  refine ⟨?_, ?_, ?_⟩
  · intro h
    unfold updateSettings
    rw [if_pos (List.length_pos.mpr h)]
  · intro h
    unfold updateSettings
    rw [if_neg (by rw [h]; simp)]
  · intro f
    rw [validate_mem_field]
    simp only [vPollInterval_ne, vParallelReviews_ne, vMaxReviewVersions_ne,
      vContextVersions_ne, vCleanupIntervalHours_ne, vCleanupAgeDays_ne,
      vSyncMode_ne, vRepoPatterns_ne]

/-- C8 witness: an update carrying an out-of-range poll interval of 5 is
rejected with the config object and the settings file untouched. -/
theorem C8_settings_update_wholesale_witness :
    updateSettings (fun _ => true)
      ⟨SVal.null, SVal.null, SVal.null, SVal.null, SVal.null, SVal.null,
       SVal.null, SVal.null, SVal.null, SVal.null, SVal.null⟩
      none
      ⟨none, none, some (SVal.num 5), none, none, none, none, none, none, none, none⟩ =
    (validateSettings (fun _ => true)
      ⟨none, none, some (SVal.num 5), none, none, none, none, none, none, none, none⟩,
     ⟨SVal.null, SVal.null, SVal.null, SVal.null, SVal.null, SVal.null,
      SVal.null, SVal.null, SVal.null, SVal.null, SVal.null⟩,
     none) :=
  (C8_settings_update_wholesale (fun _ => true)
    ⟨SVal.null, SVal.null, SVal.null, SVal.null, SVal.null, SVal.null,
     SVal.null, SVal.null, SVal.null, SVal.null, SVal.null⟩
    none
    ⟨none, none, some (SVal.num 5), none, none, none, none, none, none, none, none⟩).1
    (by decide)
